import Mathlib

/-!
Verification development for the Supertonic TTS Wyoming server
(src/supertonic_tts/rootfs/usr/bin/supertonic_server.py).

The server-side synthesis pipeline is embedded shallowly: samples are
rationals (the Python code uses floating point, but every claim under
study is about structural behaviour - slicing, clipping order, chunk
boundaries - not rounding), strings are Lean strings, the voice-style
dictionary is an association list, and the opaque engine is a function
parameter returning Except to model a raising call.
-/

namespace Supertonic

/-- Supported languages, from the SUPPORTED_LANGUAGES dict (lines 35-41). -/
def SUPPORTED_LANGUAGES : List (String × String) :=
  [("en", "English"), ("fr", "French"), ("es", "Spanish"),
   ("pt", "Portuguese"), ("ko", "Korean")]

/-- Supported voices, from the SUPPORTED_VOICES dict (lines 43-54). -/
def SUPPORTED_VOICES : List (String × String) :=
  [("M1", "Male Voice 1"), ("M2", "Male Voice 2"), ("M3", "Male Voice 3"),
   ("M4", "Male Voice 4"), ("M5", "Male Voice 5"),
   ("F1", "Female Voice 1"), ("F2", "Female Voice 2"), ("F3", "Female Voice 3"),
   ("F4", "Female Voice 4"), ("F5", "Female Voice 5")]

/-- Configuration dictionary. Each field models the presence or absence of
the corresponding key in the config dict; the handler reads them through
config.get with literal fallbacks. -/
structure Config where
  default_language : Option String := none
  default_voice : Option String := none
  speed : Option Rat := none
  volume_boost : Option Rat := none
  quality : Option Int := none

/-- The engine handle: a fixed sample rate plus the synthesis call.
The call is a black box that may raise (Except.error); on success it
returns a batched waveform (list of rows of samples) and a duration that
is either a scalar or a collection (the code checks hasattr length). -/
structure Engine where
  sample_rate : Nat
  run : String → String → Nat → Int → Rat →
    Except String (List (List Rat) × (Rat ⊕ List Rat))

/-- Python truthiness of the expression (synthesize.voice or default):
None and the empty string are falsy, so both select the default. -/
def pyTruthyOr (v : Option String) (d : String) : String :=
  match v with
  | none => d
  | some s => if s = "" then d else s

/-- Splitting at the first underscore: the behaviour of the Python
voice.split call with the underscore separator and maxsplit 1, guarded by
the membership test; returns none when no underscore occurs. -/
def splitFirstUnderscore : List Char → Option (List Char × List Char)
  | [] => none
  | c :: rest =>
    if c = '_' then some ([], rest)
    else
      match splitFirstUnderscore rest with
      | none => none
      | some (a, b) => some (c :: a, b)

/-- Voice-token decomposition (lines 92-98): a token containing an
underscore splits at the first underscore into (language, voice id);
otherwise the language falls back to the config default (literal
fallback fr) and the whole token is the voice id. -/
def resolveVoiceToken (cfg : Config) (voice : String) : String × String :=
  match splitFirstUnderscore voice.toList with
  | some (pre, post) => (String.mk pre, String.mk post)
  | none => (cfg.default_language.getD "fr", voice)

/-- Unknown-voice substitution (lines 110-112): if the decomposed voice id
has no entry in the voice-style dict, replace it by the configured default
voice id (literal fallback M4). -/
def substituteVoice (cfg : Config) (table : List (String × Nat))
    (vn : String) : String :=
  if (table.lookup vn).isNone then cfg.default_voice.getD "M4" else vn

/-- Python int() applied to a rational: truncation toward zero. -/
def ratTrunc (q : Rat) : Int :=
  if 0 ≤ q then ⌊q⌋ else ⌈q⌉

/-- Python slice a[:stop] with a possibly negative stop index: a
non-negative stop keeps the first stop elements; a negative stop keeps
all but the last |stop| elements (clamped at zero by Nat subtraction). -/
def pySlice (l : List Rat) (stop : Int) : List Rat :=
  if 0 ≤ stop then l.take stop.toNat else l.take (l.length - stop.natAbs)

/-- Duration normalization (line 126): a collection-shaped duration is
read at index 0 (raising when empty, hence Option), a scalar is used
directly. -/
def extractDuration : Rat ⊕ List Rat → Option Rat
  | Sum.inl d => some d
  | Sum.inr ds => ds.head?

/-- Trim stage (lines 129-130): trim_samples = int(sample_rate * duration)
and wav[0, :trim_samples] on the already-selected first row. -/
def trimWaveform (sample_rate : Nat) (duration_val : Rat)
    (row : List Rat) : List Rat :=
  pySlice row (ratTrunc ((sample_rate : Rat) * duration_val))

/-- Gain stage (line 133): multiply every sample by the volume boost. -/
def applyGain (volume : Rat) (l : List Rat) : List Rat :=
  l.map (fun x => x * volume)

/-- Hard clip of one sample, the behaviour of np.clip(x, -1.0, 1.0). -/
def clip1 (x : Rat) : Rat :=
  min (max x (-1)) 1

/-- Clip stage (line 136): component-wise hard clip to [-1, 1]. -/
def clipWaveform (l : List Rat) : List Rat :=
  l.map clip1

/-- Wrap an integer into the int16 range, the behaviour of astype(int16). -/
def wrap16 (n : Int) : Int :=
  (n + 32768) % 65536 - 32768

/-- Int16 conversion (line 139): scale by 32767 and cast to int16
(truncation toward zero, then wrap; the wrap is the identity here since
inputs are pre-clipped to [-1, 1]). -/
def toInt16 (x : Rat) : Int :=
  wrap16 (ratTrunc (x * 32767))

/-- Wyoming events the handler can emit: self-describing audio chunks
and the terminal stop event. -/
inductive WyEvent where
  | audioChunk (rate : Nat) (width : Nat) (channels : Nat) (samples : List Int)
  | audioStop
deriving DecidableEq, Repr

/-- Chunk-slicing loop, fuel-indexed so that the recursion is structural:
each step of the loop consumes at least one sample, so a fuel equal to the
list length always suffices. -/
def chunkListF : Nat → Nat → List Int → List (List Int)
  | 0, _, _ => []
  | _ + 1, _, [] => []
  | _ + 1, 0, _ :: _ => []
  | fuel + 1, c + 1, x :: xs => (x :: xs.take c) :: chunkListF fuel (c + 1) (xs.drop c)

/-- Chunk-slicing loop (lines 146-147): for i in range(0, len, c) take
wav[i:i+c]. A zero chunk size is unreachable in the handler (the constant
is 1024; Python range would raise there) and is modelled as no chunks. -/
def chunkList (c : Nat) (l : List Int) : List (List Int) :=
  chunkListF l.length c l

/-- Fixed chunk size of the emission loop (line 145). -/
def chunk_size : Nat := 1024

/-- Chunk emission followed by the terminal stop event (lines 144-160):
each chunk event carries the engine sample rate, width 2 (16-bit) and one
channel, and exactly one AudioStop closes the stream. -/
def streamEvents (rate : Nat) (wav : List Int) : List WyEvent :=
  (chunkList chunk_size wav).map (fun ch => WyEvent.audioChunk rate 2 1 ch)
    ++ [WyEvent.audioStop]

/-- The synthesize handler (lines 87-165), as the list of events written
to the session. Any exception inside the try block (failed style lookup
after substitution, a raising engine call, an empty duration collection,
an empty waveform batch) reaches the except handler, which writes a single
AudioStop. -/
def handleSynthesize (cfg : Config) (table : List (String × Nat))
    (eng : Engine) (text : String) (voiceOpt : Option String) : List WyEvent :=
  let voice := pyTruthyOr voiceOpt (cfg.default_voice.getD "M4")
  let lv := resolveVoiceToken cfg voice
  let language := lv.1
  let voice_name := lv.2
  let speed := cfg.speed.getD (3 / 2 : Rat)
  let volume := cfg.volume_boost.getD (2 : Rat)
  let quality := cfg.quality.getD 5
  let voice_name2 := substituteVoice cfg table voice_name
  match table.lookup voice_name2 with
  | none => [WyEvent.audioStop]
  | some style =>
    match eng.run text language style quality speed with
    | Except.error _ => [WyEvent.audioStop]
    | Except.ok (wav, dur) =>
      match extractDuration dur with
      | none => [WyEvent.audioStop]
      | some duration_val =>
        match wav.head? with
        | none => [WyEvent.audioStop]
        | some row =>
          let wav_trimmed := trimWaveform eng.sample_rate duration_val row
          let wav_boosted := applyGain volume wav_trimmed
          let wav_clipped := clipWaveform wav_boosted
          let wav_int16 := wav_clipped.map toInt16
          streamEvents eng.sample_rate wav_int16

/-- Whether the control flow of handleSynthesize reaches the engine call:
everything before the style lookup is total, so the engine is invoked
exactly when the post-substitution style lookup succeeds. -/
def engineCalled (cfg : Config) (table : List (String × Nat))
    (voiceOpt : Option String) : Bool :=
  let voice := pyTruthyOr voiceOpt (cfg.default_voice.getD "M4")
  let voice_name := (resolveVoiceToken cfg voice).2
  (table.lookup (substituteVoice cfg table voice_name)).isSome

/-- Whether the try block of handleSynthesize fails before the chunk
emission loop begins: failed style lookup, raising engine call, empty
duration collection, or empty waveform batch. -/
def synthesisFails (cfg : Config) (table : List (String × Nat))
    (eng : Engine) (text : String) (voiceOpt : Option String) : Bool :=
  let voice := pyTruthyOr voiceOpt (cfg.default_voice.getD "M4")
  let lv := resolveVoiceToken cfg voice
  let language := lv.1
  let voice_name := lv.2
  let speed := cfg.speed.getD (3 / 2 : Rat)
  let quality := cfg.quality.getD 5
  let voice_name2 := substituteVoice cfg table voice_name
  match table.lookup voice_name2 with
  | none => true
  | some style =>
    match eng.run text language style quality speed with
    | Except.error _ => true
    | Except.ok (wav, dur) => (extractDuration dur).isNone || wav.head?.isNone

/-- Payloads of the chunk events of an event list, in emission order. -/
def chunkPayloads (evs : List WyEvent) : List (List Int) :=
  evs.filterMap (fun e =>
    match e with
    | WyEvent.audioChunk _ _ _ s => some s
    | WyEvent.audioStop => none)

/-- Test for the terminal stop event. -/
def isStop : WyEvent → Bool
  | WyEvent.audioStop => true
  | WyEvent.audioChunk _ _ _ _ => false

/-- Number of terminal stop events in an event list. -/
def stopCount (evs : List WyEvent) : Nat :=
  (evs.filter isStop).length

/-- Capability metadata built at bootstrap (lines 249-264): one entry per
(language, voice) pair of the two static dicts, named language_voiceId.
Note this iterates SUPPORTED_VOICES, not the loaded voice-style table. -/
structure TtsVoiceInfo where
  name : String
  description : String
  languages : List String
deriving DecidableEq, Repr

/-- The voices list built in main (lines 249-264). -/
def buildVoices : List TtsVoiceInfo :=
  SUPPORTED_LANGUAGES.flatMap (fun lp =>
    SUPPORTED_VOICES.map (fun vp =>
      { name := lp.1 ++ "_" ++ vp.1,
        description := lp.2 ++ " - " ++ vp.2,
        languages := [lp.1] }))

/-- Modelled from the spec: the advertised identity names the spec
describes, the cross product of the supported languages with the voices
actually loaded into the Voice Table. Used only to compare with what the
code builds. -/
def specAdvertisedNames (loaded : List String) : List String :=
  SUPPORTED_LANGUAGES.flatMap (fun lp => loaded.map (fun v => lp.1 ++ "_" ++ v))

/-- A concrete config equal to the literal default configuration the
bootstrap installs when no options file exists (lines 218-224). -/
def cfgD : Config :=
  { default_language := some "fr", default_voice := some "M4",
    speed := some (3 / 2), volume_boost := some 2, quality := some 5 }

/-- A concrete deterministic engine stub: sample rate 4, always succeeds
with one batch row of four zero samples and scalar duration 1. -/
def engStub : Engine :=
  { sample_rate := 4,
    run := fun _ _ _ _ _ => Except.ok ([[0, 0, 0, 0]], Sum.inl 1) }


/-! Chunk-loop lemmas. -/

theorem chunkListF_nil (fuel c : Nat) : chunkListF fuel c [] = [] := by
  cases fuel <;> cases c <;> rfl

theorem chunkListF_eq_nil_iff (fuel c : Nat) (l : List Int) (hl : l.length ≤ fuel) :
    chunkListF fuel (c + 1) l = [] ↔ l = [] := by
  cases l with
  | nil => simp [chunkListF_nil]
  | cons x xs =>
    cases fuel with
    | zero => simp at hl
    | succ fuel => simp [chunkListF]

theorem chunkListF_flatten (fuel c : Nat) :
    ∀ l : List Int, l.length ≤ fuel → (chunkListF fuel (c + 1) l).flatten = l := by
  induction fuel with
  | zero =>
    intro l hl
    rw [List.length_eq_zero.mp (Nat.le_zero.mp hl)]
    rfl
  | succ fuel ih =>
    intro l hl
    cases l with
    | nil => rfl
    | cons x xs =>
      have hdrop : (xs.drop c).length ≤ fuel := by
        simp only [List.length_drop]
        simp only [List.length_cons] at hl
        omega
      simp only [chunkListF, List.flatten_cons, ih (xs.drop c) hdrop]
      simp

theorem chunkListF_length (fuel c : Nat) :
    ∀ l : List Int, l.length ≤ fuel →
      (chunkListF fuel (c + 1) l).length = (l.length + c) / (c + 1) := by
  induction fuel with
  | zero =>
    intro l hl
    rw [List.length_eq_zero.mp (Nat.le_zero.mp hl)]
    simp [chunkListF_nil, Nat.div_eq_of_lt (Nat.lt_succ_of_le (Nat.le_refl c))]
  | succ fuel ih =>
    intro l hl
    cases l with
    | nil => simp [chunkListF, Nat.div_eq_of_lt (Nat.lt_succ_of_le (Nat.le_refl c))]
    | cons x xs =>
      simp only [chunkListF, List.length_cons]
      rw [ih (xs.drop c) (by simp only [List.length_drop]; simp only [List.length_cons] at hl; omega)]
      simp only [List.length_drop]
      have h2 : xs.length + 1 + c = xs.length + (c + 1) := by omega
      rw [h2, Nat.add_div_right _ (Nat.succ_pos c)]
      by_cases hc : c ≤ xs.length
      · rw [Nat.sub_add_cancel hc]
      · have h3 : xs.length - c = 0 := by omega
        rw [h3, Nat.zero_add, Nat.div_eq_of_lt (by omega), Nat.div_eq_of_lt (by omega)]

theorem chunkListF_dropLast (fuel c : Nat) :
    ∀ l : List Int, l.length ≤ fuel →
      ∀ ch ∈ (chunkListF fuel (c + 1) l).dropLast, ch.length = c + 1 := by
  induction fuel with
  | zero =>
    intro l hl ch hch
    rw [List.length_eq_zero.mp (Nat.le_zero.mp hl)] at hch
    simp [chunkListF_nil] at hch
  | succ fuel ih =>
    intro l hl ch hch
    cases l with
    | nil => simp [chunkListF_nil] at hch
    | cons x xs =>
      have hl' : xs.length + 1 ≤ fuel + 1 := by simpa using hl
      have hdrop : (xs.drop c).length ≤ fuel := by
        simp only [List.length_drop]; omega
      simp only [chunkListF] at hch
      rcases hrest : chunkListF fuel (c + 1) (xs.drop c) with _ | ⟨r, rs⟩
      · rw [hrest] at hch; simp at hch
      · rw [hrest] at hch
        rw [List.dropLast_cons_of_ne_nil (by simp)] at hch
        have hne : xs.drop c ≠ [] := by
          intro hd
          rw [hd, chunkListF_nil] at hrest
          exact (List.cons_ne_nil r rs) hrest.symm
        have hlen : c < xs.length := by
          by_contra hcon
          push_neg at hcon
          exact hne (List.drop_of_length_le hcon)
        rcases List.mem_cons.mp hch with h1 | h2
        · subst h1; simp [List.length_take]; omega
        · exact ih (xs.drop c) hdrop ch (by rw [hrest]; exact h2)

theorem chunkListF_getLast (fuel c : Nat) :
    ∀ l : List Int, l.length ≤ fuel →
      ∀ ch, (chunkListF fuel (c + 1) l).getLast? = some ch →
        ch.length = if l.length % (c + 1) = 0 then c + 1 else l.length % (c + 1) := by
  induction fuel with
  | zero =>
    intro l hl ch hch
    rw [List.length_eq_zero.mp (Nat.le_zero.mp hl)] at hch
    simp [chunkListF_nil] at hch
  | succ fuel ih =>
    intro l hl ch hch
    cases l with
    | nil => simp [chunkListF_nil] at hch
    | cons x xs =>
      have hl' : xs.length + 1 ≤ fuel + 1 := by simpa using hl
      have hdrop : (xs.drop c).length ≤ fuel := by
        simp only [List.length_drop]; omega
      simp only [chunkListF] at hch
      rcases hrest : chunkListF fuel (c + 1) (xs.drop c) with _ | ⟨r, rs⟩
      · rw [hrest] at hch
        simp only [List.getLast?_singleton, Option.some.injEq] at hch
        have hxs : xs.length ≤ c := by
          by_contra hcon
          push_neg at hcon
          have hne : xs.drop c ≠ [] := by
            apply List.ne_nil_of_length_pos
            simp only [List.length_drop]
            omega
          exact hne ((chunkListF_eq_nil_iff fuel c (xs.drop c) hdrop).mp hrest)
        have hchlen : ch.length = xs.length + 1 := by
          rw [← hch]
          simp only [List.length_cons, List.length_take]
          omega
        simp only [List.length_cons]
        by_cases heq : xs.length = c
        · have hcond : (xs.length + 1) % (c + 1) = 0 := by
            rw [heq]
            exact Nat.mod_self (c + 1)
          simp [hcond]
          omega
        · have hcond : (xs.length + 1) % (c + 1) = xs.length + 1 :=
            Nat.mod_eq_of_lt (by omega)
          simp [hcond]
          omega
      · rw [hrest] at hch
        rw [List.getLast?_cons_cons] at hch
        have hne : xs.drop c ≠ [] := by
          intro hd
          rw [hd, chunkListF_nil] at hrest
          exact (List.cons_ne_nil r rs) hrest.symm
        have hlen : c < xs.length := by
          by_contra hcon
          push_neg at hcon
          exact hne (List.drop_of_length_le hcon)
        have := ih (xs.drop c) hdrop ch (by rw [hrest]; exact hch)
        simp only [List.length_drop] at this
        have hmod : (xs.length + 1) % (c + 1) = (xs.length - c) % (c + 1) := by
          have : xs.length + 1 = (xs.length - c) + (c + 1) := by omega
          rw [this, Nat.add_mod_right]
        simp only [List.length_cons, hmod]
        exact this

theorem chunkPayloads_map_concat (rate : Nat) (cl : List (List Int)) :
    chunkPayloads (cl.map (fun ch => WyEvent.audioChunk rate 2 1 ch)
      ++ [WyEvent.audioStop]) = cl := by
  induction cl with
  | nil => rfl
  | cons a t ih =>
    simp [chunkPayloads, List.filterMap_cons] at ih ⊢
    exact ih

theorem stopCount_map_concat (rate : Nat) (cl : List (List Int)) :
    stopCount (cl.map (fun ch => WyEvent.audioChunk rate 2 1 ch)
      ++ [WyEvent.audioStop]) = 1 := by
  simp [stopCount, List.filter_append, List.filter_map, isStop]

theorem chunkPayloads_streamEvents (rate : Nat) (wav : List Int) :
    chunkPayloads (streamEvents rate wav) = chunkList chunk_size wav :=
  chunkPayloads_map_concat rate (chunkList chunk_size wav)

theorem stopCount_streamEvents (rate : Nat) (wav : List Int) :
    stopCount (streamEvents rate wav) = 1 :=
  stopCount_map_concat rate (chunkList chunk_size wav)

theorem getLast_streamEvents (rate : Nat) (wav : List Int) :
    (streamEvents rate wav).getLast? = some WyEvent.audioStop :=
  List.getLast?_concat _

/-- C1: for every post-processed int16 waveform of length L and the fixed
chunk size C = 1024, the emission loop produces exactly ceil(L/C) chunk
events (as a Nat that is (L + C - 1) / C), each carrying C samples except
possibly the last (which carries L mod C samples when that is non-zero),
the chunks concatenate back to the original waveform in order, and exactly
one terminal stop event follows strictly after the last chunk. -/
theorem chunking_stream_correct (rate : Nat) (wav : List Int) :
    (chunkPayloads (streamEvents rate wav)).length
        = (wav.length + (chunk_size - 1)) / chunk_size
  ∧ (chunkPayloads (streamEvents rate wav)).flatten = wav
  ∧ (∀ ch ∈ (chunkPayloads (streamEvents rate wav)).dropLast,
        ch.length = chunk_size)
  ∧ (∀ ch, (chunkPayloads (streamEvents rate wav)).getLast? = some ch →
        ch.length = if wav.length % chunk_size = 0 then chunk_size
          else wav.length % chunk_size)
  ∧ stopCount (streamEvents rate wav) = 1
  ∧ (streamEvents rate wav).getLast? = some WyEvent.audioStop := by
  rw [chunkPayloads_streamEvents]
  have hcs : chunk_size = 1023 + 1 := rfl
  refine ⟨?_, ?_, ?_, ?_, stopCount_streamEvents rate wav,
    getLast_streamEvents rate wav⟩
  · rw [hcs]
    exact chunkListF_length wav.length 1023 wav (Nat.le_refl _)
  · rw [hcs]
    exact chunkListF_flatten wav.length 1023 wav (Nat.le_refl _)
  · rw [hcs]
    exact chunkListF_dropLast wav.length 1023 wav (Nat.le_refl _)
  · rw [hcs]
    exact chunkListF_getLast wav.length 1023 wav (Nat.le_refl _)

/-- Witness for the chunking theorem at a concrete waveform of 2049 zero
samples: three chunks (1024, 1024 and 1 samples) and one final stop. -/
theorem chunking_stream_correct_witness :
    (chunkPayloads (streamEvents 44100 (List.replicate 2049 0))).length = 3
  ∧ (∀ ch, (chunkPayloads (streamEvents 44100 (List.replicate 2049 0))).getLast?
        = some ch → ch.length = 1) := by
  have h := chunking_stream_correct 44100 (List.replicate 2049 0)
  refine ⟨?_, ?_⟩
  · rw [h.1, List.length_replicate]
    decide
  · intro ch hch
    have hlen := h.2.2.2.1 ch hch
    rw [hlen, List.length_replicate]
    decide

theorem handleSynthesize_cases (cfg : Config) (table : List (String × Nat))
    (eng : Engine) (text : String) (v : Option String) :
    handleSynthesize cfg table eng text v = [WyEvent.audioStop]
  ∨ ∃ wav, handleSynthesize cfg table eng text v
      = streamEvents eng.sample_rate wav := by
  simp only [handleSynthesize]
  split
  · exact Or.inl rfl
  · split
    · exact Or.inl rfl
    · split
      · exact Or.inl rfl
      · split
        · exact Or.inl rfl
        · exact Or.inr ⟨_, rfl⟩

theorem handleSynthesize_stop_of_fails (cfg : Config)
    (table : List (String × Nat)) (eng : Engine) (text : String)
    (v : Option String) (h : synthesisFails cfg table eng text v = true) :
    handleSynthesize cfg table eng text v = [WyEvent.audioStop] := by
  simp only [synthesisFails] at h
  simp only [handleSynthesize]
  split
  · rfl
  · next style hlk =>
    simp only [hlk] at h
    split
    · rfl
    · next wav dur hrun =>
      simp only [hrun] at h
      split
      · rfl
      · next dv hdur =>
        simp only [hdur] at h
        split
        · rfl
        · next row hrow =>
          simp only [hrow] at h
          simp at h

/-- C2: on any failure during parameter resolution or synthesis invocation
(before chunk emission begins) the handler emits exactly one terminal stop
event and zero chunk events; and on every path, failing or not, the output
contains exactly one terminal stop event and it is the last event, so no
chunk follows it. -/
theorem failure_emits_single_stop (cfg : Config) (table : List (String × Nat))
    (eng : Engine) (text : String) (v : Option String) :
    (synthesisFails cfg table eng text v = true →
        handleSynthesize cfg table eng text v = [WyEvent.audioStop]
      ∧ chunkPayloads (handleSynthesize cfg table eng text v) = [])
  ∧ stopCount (handleSynthesize cfg table eng text v) = 1
  ∧ (handleSynthesize cfg table eng text v).getLast?
      = some WyEvent.audioStop := by
  refine ⟨?_, ?_, ?_⟩
  · intro h
    have he := handleSynthesize_stop_of_fails cfg table eng text v h
    rw [he]
    exact ⟨rfl, rfl⟩
  · rcases handleSynthesize_cases cfg table eng text v with he | ⟨wav, he⟩
    · rw [he]; rfl
    · rw [he]; exact stopCount_streamEvents _ _
  · rcases handleSynthesize_cases cfg table eng text v with he | ⟨wav, he⟩
    · rw [he]; rfl
    · rw [he]; exact getLast_streamEvents _ _

/-- Witness for the failure theorem: with an engine stub that always
raises, the handler output is exactly one stop event. -/
theorem failure_emits_single_stop_witness :
    synthesisFails cfgD [("M4", 0)]
        { sample_rate := 4, run := fun _ _ _ _ _ => Except.error "boom" }
        "hello" (some "fr_M4") = true
  ∧ handleSynthesize cfgD [("M4", 0)]
        { sample_rate := 4, run := fun _ _ _ _ _ => Except.error "boom" }
        "hello" (some "fr_M4") = [WyEvent.audioStop] := by
  have hf : synthesisFails cfgD [("M4", 0)]
      { sample_rate := 4, run := fun _ _ _ _ _ => Except.error "boom" }
      "hello" (some "fr_M4") = true := by rfl
  exact ⟨hf, (failure_emits_single_stop cfgD [("M4", 0)]
    { sample_rate := 4, run := fun _ _ _ _ _ => Except.error "boom" }
    "hello" (some "fr_M4")).1 hf |>.1⟩

/-- C3: when the engine returns a first batch row of N samples and a
non-negative duration whose sample count M = floor(sample_rate * duration)
satisfies M < N, the trimmed waveform is exactly the first M samples of
that row, so it has length M and no sample at index M or beyond survives. -/
theorem trim_to_duration (sr : Nat) (d : Rat) (row : List Rat)
    (hd : 0 ≤ d) (hM : (⌊(sr : Rat) * d⌋).toNat < row.length) :
    trimWaveform sr d row = row.take (⌊(sr : Rat) * d⌋).toNat
  ∧ (trimWaveform sr d row).length = (⌊(sr : Rat) * d⌋).toNat := by
  have hnn : (0 : Rat) ≤ (sr : Rat) * d :=
    mul_nonneg (by positivity) hd
  have htr : ratTrunc ((sr : Rat) * d) = ⌊(sr : Rat) * d⌋ := by
    rw [ratTrunc, if_pos hnn]
  have he : trimWaveform sr d row = row.take (⌊(sr : Rat) * d⌋).toNat := by
    rw [trimWaveform, htr, pySlice, if_pos (Int.floor_nonneg.mpr hnn)]
  refine ⟨he, ?_⟩
  rw [he, List.length_take]
  omega

/-- Witness for the trim theorem: sample rate 2, duration 1, a row of
three samples; floor(2 * 1) = 2 < 3 and the result keeps the first two. -/
theorem trim_to_duration_witness :
    (0 : Rat) ≤ 1
  ∧ (⌊((2 : Nat) : Rat) * 1⌋).toNat < ([5, 7, 9] : List Rat).length
  ∧ trimWaveform 2 1 [5, 7, 9] = [5, 7] := by
  have h1 : (0 : Rat) ≤ 1 := by norm_num
  have hfl0 : ⌊((2 : Nat) : Rat) * 1⌋ = 2 := by norm_num
  have hfl : (⌊((2 : Nat) : Rat) * 1⌋).toNat = 2 := by rw [hfl0]; rfl
  have h2 : (⌊((2 : Nat) : Rat) * 1⌋).toNat < ([5, 7, 9] : List Rat).length := by
    rw [hfl]
    decide
  refine ⟨h1, h2, ?_⟩
  rw [(trim_to_duration 2 1 [5, 7, 9] h1 h2).1, hfl]
  rfl

/-- C4: the clipping stage maps a post-gain sample below -1 to exactly -1,
a sample above 1 to exactly 1, and is the identity on [-1, 1]; it acts
component-wise on the waveform and every output sample lies in [-1, 1]. -/
theorem clip_correct (x : Rat) (l : List Rat) (i : Nat) :
    (x < -1 → clip1 x = -1)
  ∧ (1 < x → clip1 x = 1)
  ∧ (-1 ≤ x → x ≤ 1 → clip1 x = x)
  ∧ (-1 ≤ clip1 x ∧ clip1 x ≤ 1)
  ∧ (clipWaveform l)[i]? = (l[i]?).map clip1
  ∧ (∀ y ∈ clipWaveform l, -1 ≤ y ∧ y ≤ 1) := by
  refine ⟨?_, ?_, ?_, ⟨?_, ?_⟩, ?_, ?_⟩
  · intro hx
    rw [clip1, max_eq_right (le_of_lt hx), min_eq_left (by norm_num)]
  · intro hx
    rw [clip1, min_eq_right]
    exact le_trans (le_of_lt hx) (le_max_left x (-1))
  · intro h1 h2
    rw [clip1, max_eq_left h1, min_eq_left h2]
  · exact le_min (le_max_right x (-1)) (by norm_num)
  · exact min_le_right _ _
  · rw [clipWaveform]
    exact List.getElem?_map clip1 l i
  · intro y hy
    rw [clipWaveform] at hy
    obtain ⟨z, _, hz⟩ := List.mem_map.mp hy
    rw [← hz, clip1]
    exact ⟨le_min (le_max_right z (-1)) (by norm_num), min_le_right _ _⟩

/-- Witness for the clip theorem at x = -3 (clips to -1), the bound check,
and a concrete three-sample waveform clipped component-wise. -/
theorem clip_correct_witness :
    clip1 (-3) = -1
  ∧ clipWaveform [-3, (1 : Rat) / 2, 7] = [-1, (1 : Rat) / 2, 1] := by
  have h := clip_correct (-3) ([-3, (1 : Rat) / 2, 7]) 0
  have h1 : clip1 (-3) = -1 := h.1 (by norm_num)
  have h2 : clip1 ((1 : Rat) / 2) = (1 : Rat) / 2 :=
    (clip_correct ((1 : Rat) / 2) [] 0).2.2.1 (by norm_num) (by norm_num)
  have h3 : clip1 7 = 1 := (clip_correct 7 [] 0).2.1 (by norm_num)
  refine ⟨h1, ?_⟩
  rw [clipWaveform]
  simp only [List.map_cons, List.map_nil, h1, h2, h3]

theorem splitFirstUnderscore_of_eq (a b : List Char) (ha : '_' ∉ a) :
    splitFirstUnderscore (a ++ '_' :: b) = some (a, b) := by
  induction a with
  | nil => simp [splitFirstUnderscore]
  | cons c t ih =>
    have hc : c ≠ '_' := fun h => ha (h ▸ List.mem_cons_self c t)
    have ht : '_' ∉ t := fun h => ha (List.mem_cons_of_mem c h)
    simp only [List.cons_append, splitFirstUnderscore, if_neg hc,
      List.append_eq, ih ht]

theorem splitFirstUnderscore_of_none (l : List Char) (h : '_' ∉ l) :
    splitFirstUnderscore l = none := by
  induction l with
  | nil => rfl
  | cons c t ih =>
    have hc : c ≠ '_' := fun hh => h (hh ▸ List.mem_cons_self c t)
    have ht : '_' ∉ t := fun hh => h (List.mem_cons_of_mem c hh)
    simp only [splitFirstUnderscore, if_neg hc, ih ht]

/-- C5: a voice token written as prefix ++ underscore ++ rest, with no
underscore in the prefix (so the split happens at the first underscore),
resolves to language = prefix and voice id = rest; a token with no
underscore resolves to the whole token as voice id with the language taken
from the configuration default. -/
theorem voice_token_resolution (cfg : Config) (a b : List Char)
    (tok : String) (ha : '_' ∉ a) (htok : '_' ∉ tok.toList) :
    resolveVoiceToken cfg (String.mk (a ++ '_' :: b))
        = (String.mk a, String.mk b)
  ∧ resolveVoiceToken cfg tok = (cfg.default_language.getD "fr", tok) := by
  constructor
  · rw [resolveVoiceToken]
    have : (String.mk (a ++ '_' :: b)).toList = a ++ '_' :: b := rfl
    rw [this, splitFirstUnderscore_of_eq a b ha]
  · rw [resolveVoiceToken, splitFirstUnderscore_of_none tok.toList htok]

/-- Witness for voice-token resolution: the token fr_M4 resolves to
language fr and voice M4, and the bare token M4 resolves to voice M4 with
the default language fr of the default configuration. -/
theorem voice_token_resolution_witness :
    resolveVoiceToken cfgD "fr_M4" = ("fr", "M4")
  ∧ resolveVoiceToken cfgD "M4" = ("fr", "M4") := by
  have h := voice_token_resolution cfgD ['f', 'r'] ['M', '4'] "M4"
    (by decide) (by decide)
  refine ⟨?_, ?_⟩
  · have h1 := h.1
    have he : String.mk (['f', 'r'] ++ '_' :: ['M', '4']) = "fr_M4" := rfl
    rw [he] at h1
    rw [h1]
  · have h2 := h.2
    rw [h2]
    rfl

theorem substituteVoice_of_missing (cfg : Config) (table : List (String × Nat))
    (vn : String) (h : table.lookup vn = none) :
    substituteVoice cfg table vn = cfg.default_voice.getD "M4" := by
  rw [substituteVoice, h]
  rfl

/-- C10: when neither the decomposed voice id nor the configured default
voice id has a Voice Table entry, the substituted lookup fails too, the
engine is never invoked, and the session output is a single terminal stop
event with zero audio chunks. -/
theorem default_voice_missing_fails (cfg : Config)
    (table : List (String × Nat)) (eng : Engine) (text : String)
    (v : Option String)
    (h1 : table.lookup
      ((resolveVoiceToken cfg (pyTruthyOr v (cfg.default_voice.getD "M4"))).2)
        = none)
    (h2 : table.lookup (cfg.default_voice.getD "M4") = none) :
    handleSynthesize cfg table eng text v = [WyEvent.audioStop]
  ∧ engineCalled cfg table v = false
  ∧ stopCount (handleSynthesize cfg table eng text v) = 1
  ∧ chunkPayloads (handleSynthesize cfg table eng text v) = [] := by
  have hsub := substituteVoice_of_missing cfg table _ h1
  have hmain : handleSynthesize cfg table eng text v = [WyEvent.audioStop] := by
    simp only [handleSynthesize, hsub, h2]
  have heng : engineCalled cfg table v = false := by
    simp only [engineCalled, hsub, h2]
    rfl
  exact ⟨hmain, heng, by rw [hmain]; rfl, by rw [hmain]; rfl⟩

/-- Witness for the doubly-missing-voice theorem: empty voice table, so
both the token voice XX and the default M4 are missing, and the handler
emits only the stop event. -/
theorem default_voice_missing_fails_witness :
    List.lookup ((resolveVoiceToken cfgD
        (pyTruthyOr (some "XX") (cfgD.default_voice.getD "M4"))).2) ([] : List (String × Nat)) = none
  ∧ handleSynthesize cfgD [] engStub "some text" (some "XX") = [WyEvent.audioStop]
  ∧ engineCalled cfgD [] (some "XX") = false := by
  refine ⟨rfl, ?_, ?_⟩
  · exact (default_voice_missing_fails cfgD [] engStub "some text"
      (some "XX") rfl rfl).1
  · exact (default_voice_missing_fails cfgD [] engStub "some text"
      (some "XX") rfl rfl).2.1

/-- Counterexample to C6 as stated: with a voice table in which the
configured default voice M4 is itself missing (here an empty table), a
synthesize command for the unknown voice XX does not proceed with
synthesis: the engine is never invoked and the request fails with a bare
stop event. -/
theorem unknown_voice_substitution_cex :
    handleSynthesize cfgD [] engStub "hello" (some "XX") = [WyEvent.audioStop]
  ∧ engineCalled cfgD [] (some "XX") = false := by
  exact ⟨rfl, rfl⟩

/-- C6 amended: when the decomposed voice id has no Voice Table entry, the
handler substitutes the configured default voice id, and provided that
default is present in the Voice Table, the engine is invoked (the request
proceeds instead of failing). -/
theorem unknown_voice_substitution (cfg : Config)
    (table : List (String × Nat)) (v : Option String) (st : Nat)
    (h1 : table.lookup
      ((resolveVoiceToken cfg (pyTruthyOr v (cfg.default_voice.getD "M4"))).2)
        = none)
    (h2 : table.lookup (cfg.default_voice.getD "M4") = some st) :
    substituteVoice cfg table
        ((resolveVoiceToken cfg (pyTruthyOr v (cfg.default_voice.getD "M4"))).2)
      = cfg.default_voice.getD "M4"
  ∧ engineCalled cfg table v = true := by
  have hsub := substituteVoice_of_missing cfg table _ h1
  refine ⟨hsub, ?_⟩
  simp only [engineCalled, hsub, h2]
  rfl

/-- Witness for the amended substitution theorem: table containing only
the default voice M4; the unknown voice XX is replaced by M4 and the
engine is invoked. -/
theorem unknown_voice_substitution_witness :
    List.lookup ((resolveVoiceToken cfgD
        (pyTruthyOr (some "XX") (cfgD.default_voice.getD "M4"))).2)
        [("M4", 7)] = none
  ∧ substituteVoice cfgD [("M4", 7)]
      ((resolveVoiceToken cfgD
        (pyTruthyOr (some "XX") (cfgD.default_voice.getD "M4"))).2) = "M4"
  ∧ engineCalled cfgD [("M4", 7)] (some "XX") = true := by
  have h := unknown_voice_substitution cfgD [("M4", 7)] (some "XX") 7 rfl rfl
  exact ⟨rfl, h.1, h.2⟩

theorem trimWaveform_stub : trimWaveform 4 1 [0, 0, 0, 0] = [0, 0, 0, 0] := by
  rw [trimWaveform]
  have h4 : ratTrunc (((4 : Nat) : Rat) * 1) = 4 := by
    rw [ratTrunc, if_pos (by norm_num)]
    norm_num
  rw [h4, pySlice, if_pos (by norm_num)]
  rfl

theorem applyGain_stub : applyGain 2 [0, 0, 0, 0] = [0, 0, 0, 0] := by
  rw [applyGain]
  simp only [List.map_cons, List.map_nil]
  norm_num

theorem clip1_zero : clip1 0 = 0 := by
  rw [clip1, max_eq_left (by norm_num), min_eq_left (by norm_num)]

theorem clipWaveform_stub : clipWaveform [0, 0, 0, 0] = [0, 0, 0, 0] := by
  rw [clipWaveform]
  simp only [List.map_cons, List.map_nil, clip1_zero]

theorem toInt16_zero : toInt16 0 = 0 := by
  rw [toInt16]
  have h0 : ratTrunc ((0 : Rat) * 32767) = 0 := by
    rw [ratTrunc, if_pos (by norm_num)]
    norm_num
  rw [h0]
  decide

theorem mapToInt16_stub : ([0, 0, 0, 0] : List Rat).map toInt16 = [0, 0, 0, 0] := by
  simp only [List.map_cons, List.map_nil, toInt16_zero]

theorem handle_eval_stub (text : String) (tok : String)
    (hne : tok ≠ "") (hres : (resolveVoiceToken cfgD tok).2 = "M4") :
    handleSynthesize cfgD [("M4", 0)] engStub text (some tok)
      = [WyEvent.audioChunk 4 2 1 [0, 0, 0, 0], WyEvent.audioStop] := by
  have hpy : pyTruthyOr (some tok) (cfgD.default_voice.getD "M4") = tok := by
    simp only [pyTruthyOr, if_neg hne]
  simp only [handleSynthesize, hpy, hres]
  have hsub : substituteVoice cfgD [("M4", 0)] "M4" = "M4" := rfl
  simp only [hsub]
  have hlk : List.lookup "M4" [("M4", 0)] = some 0 := rfl
  simp only [hlk]
  have hrun : engStub.run text (resolveVoiceToken cfgD tok).1 0
      (cfgD.quality.getD 5) (cfgD.speed.getD (3 / 2))
      = Except.ok ([[0, 0, 0, 0]], Sum.inl 1) := rfl
  simp only [hrun]
  have hdur : extractDuration (Sum.inl (1 : Rat)) = some 1 := rfl
  simp only [hdur]
  have hhead : ([[0, 0, 0, 0]] : List (List Rat)).head? = some [0, 0, 0, 0] := rfl
  simp only [hhead]
  have hsr : engStub.sample_rate = 4 := rfl
  have hvol : cfgD.volume_boost.getD 2 = 2 := rfl
  simp only [hsr, hvol, trimWaveform_stub, applyGain_stub, clipWaveform_stub,
    mapToInt16_stub]
  rfl

theorem handleSynthesize_stream_of_not_fails (cfg : Config)
    (table : List (String × Nat)) (eng : Engine) (text : String)
    (v : Option String) (h : synthesisFails cfg table eng text v = false) :
    ∃ wav, handleSynthesize cfg table eng text v
      = streamEvents eng.sample_rate wav := by
  simp only [synthesisFails] at h
  simp only [handleSynthesize]
  split
  · next hlk =>
    rw [hlk] at h
    simp at h
  · next style hlk =>
    simp only [hlk] at h
    split
    · next hrun =>
      rw [hrun] at h
      simp at h
    · next wav dur hrun =>
      simp only [hrun] at h
      split
      · next hdur =>
        rw [hdur] at h
        simp [Option.isNone] at h
      · next dv hdur =>
        simp only [hdur] at h
        split
        · next hrow =>
          rw [hrow] at h
          simp [Option.isNone] at h
        · exact ⟨_, rfl⟩

/-- Counterexample to C7 as stated: with the default configuration, a
voice table containing M4 and an engine stub that succeeds on empty text,
a synthesize request with empty text is not rejected with a MissingInput
failure: the engine is invoked and an audio chunk is emitted. -/
theorem empty_text_emits_audio_cex :
    handleSynthesize cfgD [("M4", 0)] engStub "" (some "fr_M4")
      = [WyEvent.audioChunk 4 2 1 [0, 0, 0, 0], WyEvent.audioStop]
  ∧ chunkPayloads (handleSynthesize cfgD [("M4", 0)] engStub ""
      (some "fr_M4")) = [[0, 0, 0, 0]]
  ∧ engineCalled cfgD [("M4", 0)] (some "fr_M4") = true := by
  have h := handle_eval_stub "" "fr_M4" (by decide) rfl
  refine ⟨h, ?_, rfl⟩
  rw [h]
  rfl

/-- C7 amended: the streaming handler performs no text validation and has
no MissingInput error: a request with empty text proceeds through the
normal path, the engine is invoked whenever the (text-independent) voice
lookup succeeds, and when synthesis succeeds the output is the ordinary
chunk stream rather than a failure with no audio. -/
theorem empty_text_no_validation (cfg : Config) (table : List (String × Nat))
    (eng : Engine) (v : Option String)
    (hlk : (table.lookup (substituteVoice cfg table
      (resolveVoiceToken cfg (pyTruthyOr v
        (cfg.default_voice.getD "M4"))).2)).isSome = true) :
    engineCalled cfg table v = true
  ∧ (synthesisFails cfg table eng "" v = false →
      ∃ wav, handleSynthesize cfg table eng "" v
        = streamEvents eng.sample_rate wav) := by
  refine ⟨?_, handleSynthesize_stream_of_not_fails cfg table eng "" v⟩
  simp only [engineCalled]
  exact hlk

/-- Witness for the amended empty-text theorem at the default
configuration, the table containing M4, the engine stub and voice fr_M4. -/
theorem empty_text_no_validation_witness :
    (List.lookup (substituteVoice cfgD [("M4", 0)]
      (resolveVoiceToken cfgD (pyTruthyOr (some "fr_M4")
        (cfgD.default_voice.getD "M4"))).2) [("M4", 0)]).isSome = true
  ∧ engineCalled cfgD [("M4", 0)] (some "fr_M4") = true := by
  have h := empty_text_no_validation cfgD [("M4", 0)] engStub
    (some "fr_M4") rfl
  exact ⟨rfl, h.1⟩

/-- Counterexample to C8 as stated: the voice token xx_M4 resolves to the
language xx, which is outside the supported 5-code set, yet no
UnsupportedLanguage failure is reported: the engine is invoked with that
language and audio is emitted. -/
theorem unsupported_language_invoked_cex :
    (resolveVoiceToken cfgD "xx_M4").1 = "xx"
  ∧ "xx" ∉ SUPPORTED_LANGUAGES.map Prod.fst
  ∧ engineCalled cfgD [("M4", 0)] (some "xx_M4") = true
  ∧ handleSynthesize cfgD [("M4", 0)] engStub "hello" (some "xx_M4")
      = [WyEvent.audioChunk 4 2 1 [0, 0, 0, 0], WyEvent.audioStop] := by
  exact ⟨rfl, by decide, rfl, handle_eval_stub "hello" "xx_M4" (by decide) rfl⟩

/-- C8 amended: the streaming handler performs no language validation:
even when the language resolved from the voice token lies outside the
supported 5-code set, the engine is invoked (whenever the voice lookup
succeeds); no UnsupportedLanguage failure exists before engine
invocation. -/
theorem unsupported_language_no_validation (cfg : Config)
    (table : List (String × Nat)) (tok : String) (hne : tok ≠ "")
    (_hunsup : (resolveVoiceToken cfg tok).1 ∉ SUPPORTED_LANGUAGES.map Prod.fst)
    (hlk : (table.lookup (substituteVoice cfg table
      (resolveVoiceToken cfg tok).2)).isSome = true) :
    engineCalled cfg table (some tok) = true := by
  have hpy : pyTruthyOr (some tok) (cfg.default_voice.getD "M4") = tok := by
    simp only [pyTruthyOr, if_neg hne]
  simp only [engineCalled, hpy]
  exact hlk

/-- Witness for the amended language theorem at the token xx_M4 with the
default configuration and the table containing only M4. -/
theorem unsupported_language_no_validation_witness :
    ("xx_M4" ≠ ""
  ∧ (resolveVoiceToken cfgD "xx_M4").1 ∉ SUPPORTED_LANGUAGES.map Prod.fst)
  ∧ engineCalled cfgD [("M4", 0)] (some "xx_M4") = true := by
  exact ⟨⟨by decide, by decide⟩, unsupported_language_no_validation cfgD
    [("M4", 0)] "xx_M4" (by decide) (by decide) rfl⟩

/-- Counterexample to C9 as stated: with only the voice M4 loaded into the
Voice Table, the advertised capability metadata differs from the cross
product of the supported languages with the loaded voices: the code builds
it from the static SUPPORTED_VOICES dict, advertising 50 identities,
including en_F5 even though F5 is not loaded. -/
theorem capability_metadata_cex :
    buildVoices.map TtsVoiceInfo.name ≠ specAdvertisedNames ["M4"]
  ∧ (buildVoices.map TtsVoiceInfo.name).length = 50
  ∧ (specAdvertisedNames ["M4"]).length = 5
  ∧ "en_F5" ∈ buildVoices.map TtsVoiceInfo.name
  ∧ "en_F5" ∉ specAdvertisedNames ["M4"] := by
  decide

/-- C9 amended: the capability metadata advertises exactly the cross
product of the supported-language set with the full static supported-voice
identifier set (one selectable identity language_voiceId per combination),
independent of which voices were actually loaded into the Voice Table. -/
theorem capability_metadata_static :
    buildVoices.map TtsVoiceInfo.name
      = specAdvertisedNames (SUPPORTED_VOICES.map Prod.fst)
  ∧ buildVoices.length
      = SUPPORTED_LANGUAGES.length * SUPPORTED_VOICES.length := by
  decide

end Supertonic
